import Mathlib

/-!
Verification of `merge_i18n.py`: a script that merges per-paragraph i18n
translation strings from a source JSON document into a target JSON document,
matching chapters and paragraphs by their numeric identifier `n`.

The JSON trees are embedded as records carrying exactly the fields the script
reads or writes.  Python dicts are modelled as association lists: assignment
(`d[k] = v`) replaces the value at an existing key in place and otherwise
appends, and lookup returns the value at the first occurrence of the key.
Since the script only ever assigns and looks up (it never iterates an index),
this captures the dict semantics it relies on.
-/

/-- A translation mapping: language code → translated text.  Values are
`Option String` so that a JSON `null` (`none`) is distinguished from the
empty string; both are falsy in Python. -/
abbrev I18n := List (String × Option String)

/-- A paragraph: optional identifier `n`, remaining textual content
(abstracted as `text`), and an optional `i18n` mapping. -/
structure Paragraph where
  n : Option Int
  text : Option String
  i18n : Option I18n
  deriving DecidableEq, Repr

/-- A chapter: optional identifier `n`, optional `title`, an optional
chapter-level `i18n` mapping (read but never written by the script), and a
paragraph list (`chapter.get('paragraphs', [])` treats an absent list as
empty, so absent and empty are conflated). -/
structure Chapter where
  n : Option Int
  title : Option String
  i18n : Option I18n
  paragraphs : List Paragraph
  deriving DecidableEq, Repr

/-- A document: root container with a `chapters` array
(`data.get('chapters', [])`). -/
structure Document where
  chapters : List Chapter
  deriving DecidableEq, Repr

/-- Python `d[k] = v` on a dict modelled as an association list: replace in
place at an existing key, otherwise append the binding at the end. -/
def dictSet {κ α : Type} [DecidableEq κ] : List (κ × α) → κ → α → List (κ × α)
  | [], k, v => [(k, v)]
  | (k', v') :: rest, k, v =>
      if k' = k then (k, v) :: rest else (k', v') :: dictSet rest k v

/-- Python `d[k]` (and `k in d`, as `(dictGet? d k).isSome`): association-list
lookup at the first occurrence of the key. -/
def dictGet? {κ α : Type} [DecidableEq κ] : List (κ × α) → κ → Option α
  | [], _ => none
  | (k', v) :: rest, k => if k' = k then some v else dictGet? rest k

/-- Python truthiness of an optional integer identifier (`if chapter_n:`):
`None` and `0` are falsy. -/
def truthyN : Option Int → Bool
  | none => false
  | some k => k ≠ 0

/-- Python truthiness of a translation value: `None` (JSON null) and the
empty string are falsy, any other string is truthy. -/
def truthyStr : Option String → Bool
  | none => false
  | some s => s ≠ ""

/-- Python `lang in d and d[lang]`: the key is present with a truthy value. -/
def truthyLookup (m : I18n) (lang : String) : Bool :=
  match dictGet? m lang with
  | some v => truthyStr v
  | none => false

/-- One iteration of the index-construction loop: read the record's
identifier; if it is truthy, insert the record under it
(`if chapter_n: source_chapters[chapter_n] = chapter`). -/
def indexStep {α : Type} (key : α → Option Int) (d : List (Int × α)) (x : α) :
    List (Int × α) :=
  match key x with
  | some k => if k ≠ 0 then dictSet d k x else d
  | none => d

/-- The index-construction loop used twice by the script (lines 41–45 for
chapters, 55–59 for paragraphs): scan the records in array order and insert
each record whose identifier is truthy under that identifier.  `dictSet`
overwrites, so on duplicate identifiers the last record in array order wins. -/
def buildIndex {α : Type} (key : α → Option Int) (xs : List α) : List (Int × α) :=
  xs.foldl (indexStep key) []

/-- Python `k in d` followed by `d[k]` where `k` may itself be `None`
(`target_chapter.get('n')` / `target_para.get('n')`): `None` is never a key
of an index, so the lookup fails. -/
def dictFind? {α : Type} (d : List (Int × α)) : Option Int → Option α
  | some k => dictGet? d k
  | none => none

/-- One language step of the merge (lines 72–73 for `'en'`, 76–78 for the
loop): `if lang in source_i18n and source_i18n[lang]:
target_para['i18n'][lang] = source_i18n[lang]`. -/
def mergeLang (source_i18n : I18n) (t : I18n) (lang : String) : I18n :=
  match dictGet? source_i18n lang with
  | some v => if truthyStr v then dictSet t lang v else t
  | none => t

/-- The fixed list of additional language codes merged after English
(line 76). -/
def otherLangs : List String := ["de", "es", "ru", "ja", "zh"]

/-- All language codes the merge ever writes. -/
def allLangs : List String := "en" :: otherLangs

/-- The body of the `'i18n' in target_para` branch (lines 71–78): merge the
English translation (lines 72–73), then loop over the other fixed languages
(lines 76–78). -/
def mergeChain (source_i18n t18 : I18n) : I18n :=
  otherLangs.foldl (mergeLang source_i18n) (mergeLang source_i18n t18 "en")

/-- Paragraph-level merge applied to a matched pair (lines 66–78):
`source_i18n = source_para.get('i18n', {})`; if the target paragraph has an
`'i18n'` field, merge English and then each of the other fixed languages into
it; otherwise leave the paragraph alone. -/
def mergePara (source_para target_para : Paragraph) : Paragraph :=
  let source_i18n := source_para.i18n.getD []
  match target_para.i18n with
  | some t18 => { target_para with i18n := some (mergeChain source_i18n t18) }
  | none => target_para

/-- Body of the paragraph loop (lines 62–78): look the target paragraph's
identifier up in the source-paragraph index and merge on a hit, else leave
the paragraph alone. -/
def paraStep (source_paragraphs : List (Int × Paragraph))
    (target_para : Paragraph) : Paragraph :=
  match dictFind? source_paragraphs target_para.n with
  | some source_para => mergePara source_para target_para
  | none => target_para

/-- Chapter-level merge for a matched chapter pair (lines 52–84): build the
paragraph index over the source chapter, then run the paragraph loop over the
target chapter's paragraphs.  The chapter-title block (lines 80–84) is an
explicit no-op in the script and so contributes nothing. -/
def mergeChapter (source_chapter target_chapter : Chapter) : Chapter :=
  { target_chapter with
      paragraphs := target_chapter.paragraphs.map
        (paraStep (buildIndex Paragraph.n source_chapter.paragraphs)) }

/-- Body of the chapter loop (lines 48–84): look the target chapter's
identifier up in the source-chapter index and merge on a hit, else leave the
chapter alone. -/
def chapStep (source_chapters : List (Int × Chapter))
    (target_chapter : Chapter) : Chapter :=
  match dictFind? source_chapters target_chapter.n with
  | some source_chapter => mergeChapter source_chapter target_chapter
  | none => target_chapter

/-- `merge_i18n_translations` (lines 29–86): build the chapter index over the
source document, run the chapter loop over the target's chapters, and return
the (updated) target. -/
def merge_i18n_translations (target_data source_data : Document) : Document :=
  { target_data with
      chapters := target_data.chapters.map
        (chapStep (buildIndex Chapter.n source_data.chapters)) }

/-- The script's in-memory state after loading is the pair
(target tree, source tree).  Every assignment in `merge_i18n_translations`
writes into the target tree only, so the explicit-state embedding of the call
updates the first component and threads the source through unchanged. -/
def mergeState (st : Document × Document) : Document × Document :=
  (merge_i18n_translations st.1 st.2, st.2)

/-- Line 113: total paragraph count of the merged document. -/
def totalParagraphs (d : Document) : Nat :=
  (d.chapters.map (fun ch => ch.paragraphs.length)).sum

/-- Line 119: `para.get('i18n', {}).get('en')` is truthy. -/
def hasFilledEn (p : Paragraph) : Bool :=
  match dictGet? (p.i18n.getD []) "en" with
  | some v => truthyStr v
  | none => false

/-- Lines 116–120: count of paragraphs with a non-empty English
translation. -/
def filledEnTranslations (d : Document) : Nat :=
  (d.chapters.map (fun ch => (ch.paragraphs.filter hasFilledEn).length)).sum

/-- What line 126 prints: either the coverage percentage (the float is
modelled as a rational; formatting is not modelled) or the
"No paragraphs found" message. -/
inductive CoverageReport where
  | coverage (pct : ℚ)
  | noParagraphs
  deriving DecidableEq, Repr

/-- Line 126: `f"... {filled/total*100:.1f}%" if total_paragraphs > 0 else
"No paragraphs found"` — the division is inside the positive branch only. -/
def coverageLine (d : Document) : CoverageReport :=
  if totalParagraphs d > 0 then
    .coverage ((filledEnTranslations d : ℚ) / (totalParagraphs d : ℚ) * 100)
  else
    .noParagraphs

/-- The paragraph of a document at chapter position `i`, paragraph
position `j`. -/
def paraAt (d : Document) (i j : Nat) : Option Paragraph :=
  (d.chapters.get? i).bind fun c => c.paragraphs.get? j

/-- The source paragraph the merge matches against the target paragraph at
position `(i, j)`, following exactly the two index lookups the script
performs; `none` when either lookup fails. -/
def matchedSourcePara (target_data source_data : Document) (i j : Nat) :
    Option Paragraph :=
  (target_data.chapters.get? i).bind fun tc =>
    (dictFind? (buildIndex Chapter.n source_data.chapters) tc.n).bind fun sc =>
      (tc.paragraphs.get? j).bind fun tp =>
        dictFind? (buildIndex Paragraph.n sc.paragraphs) tp.n

/-- Apply the paragraph merge when a source paragraph was matched. -/
def applyMatch : Option Paragraph → Paragraph → Paragraph
  | some sp, tp => mergePara sp tp
  | none, tp => tp

/-- The keys of a paragraph's `i18n` mapping (empty when the field is
absent). -/
def i18nKeys (p : Paragraph) : List String := (p.i18n.getD []).map Prod.fst


/-! ### Dictionary lemmas -/

theorem dictGet?_dictSet {κ α : Type} [DecidableEq κ]
    (d : List (κ × α)) (k : κ) (v : α) (k' : κ) :
    dictGet? (dictSet d k v) k' = if k' = k then some v else dictGet? d k' := by
  induction d with
  | nil =>
      simp only [dictSet, dictGet?]
      by_cases h : k' = k
      · subst h
        simp
      · rw [if_neg (fun hh => h hh.symm), if_neg h]
  | cons p rest ih =>
      obtain ⟨a, b⟩ := p
      by_cases hak : a = k
      · subst hak
        simp only [dictSet, if_pos rfl, dictGet?]
        by_cases h : k' = a
        · subst h
          simp
        · rw [if_neg (fun hh => h hh.symm), if_neg h,
            if_neg (fun hh => h hh.symm)]
      · simp only [dictSet, if_neg hak, dictGet?]
        by_cases h : a = k'
        · subst h
          rw [if_pos rfl, if_neg hak, if_pos rfl]
        · simp only [if_neg h]
          exact ih

theorem dictSet_of_dictGet?_eq {κ α : Type} [DecidableEq κ]
    (d : List (κ × α)) (k : κ) (v : α) (h : dictGet? d k = some v) :
    dictSet d k v = d := by
  induction d with
  | nil => simp [dictGet?] at h
  | cons p rest ih =>
      obtain ⟨a, b⟩ := p
      simp only [dictGet?] at h
      by_cases hka : a = k
      · subst hka
        rw [if_pos rfl] at h
        injection h with hbv
        subst hbv
        simp [dictSet]
      · rw [if_neg hka] at h
        simp [dictSet, hka, ih h]

/-! ### Index-construction lemmas -/

theorem indexStep_eq_none {α : Type} (key : α → Option Int)
    (d : List (Int × α)) (x : α) (h : key x = none) :
    indexStep key d x = d := by
  simp [indexStep, h]

theorem indexStep_eq_zero {α : Type} (key : α → Option Int)
    (d : List (Int × α)) (x : α) (h : key x = some 0) :
    indexStep key d x = d := by
  simp [indexStep, h]

theorem indexStep_eq_set {α : Type} (key : α → Option Int)
    (d : List (Int × α)) (x : α) (k : Int) (h : key x = some k) (hk : k ≠ 0) :
    indexStep key d x = dictSet d k x := by
  simp [indexStep, h, hk]

theorem buildIndex_append_singleton {α : Type} (key : α → Option Int)
    (xs : List α) (x : α) :
    buildIndex key (xs ++ [x]) = indexStep key (buildIndex key xs) x := by
  simp [buildIndex, List.foldl_append]

/-- Characterisation of the index: for a nonzero key, the lookup returns the
last record in array order whose identifier is that key. -/
theorem buildIndex_get_eq_getLast {α : Type}
    (key : α → Option Int) (xs : List α) (k : Int) (hk : k ≠ 0) :
    dictGet? (buildIndex key xs) k =
      (xs.filter (fun x => key x == some k)).getLast? := by
  induction xs using List.reverseRecOn with
  | nil => simp [buildIndex, dictGet?]
  | append_singleton xs x ih =>
      rw [buildIndex_append_singleton, List.filter_append]
      cases hx : key x with
      | none =>
          rw [indexStep_eq_none key _ x hx]
          have hf : List.filter (fun y => key y == some k) [x] = [] := by
            simp [List.filter_singleton, hx]
          rw [hf, List.append_nil]
          exact ih
      | some k' =>
          by_cases hk' : k' = 0
          · subst hk'
            rw [indexStep_eq_zero key _ x hx]
            have h0 : ((0 : Int) == k) = false :=
              beq_eq_false_iff_ne.mpr (Ne.symm hk)
            have hf : List.filter (fun y => key y == some k) [x] = [] := by
              simp [List.filter_singleton, hx, h0]
            rw [hf, List.append_nil]
            exact ih
          · rw [indexStep_eq_set key _ x k' hx hk']
            by_cases hkk : k' = k
            · subst hkk
              rw [dictGet?_dictSet, if_pos rfl]
              have hf : List.filter (fun y => key y == some k') [x] = [x] := by
                simp [List.filter_singleton, hx]
              rw [hf, List.getLast?_concat]
            · rw [dictGet?_dictSet, if_neg (fun h => hkk h.symm)]
              have hf : List.filter (fun y => key y == some k) [x] = [] := by
                simp [List.filter_singleton, hx, hkk]
              rw [hf, List.append_nil]
              exact ih

/-- The index never contains the key `0` (falsy identifiers are skipped). -/
theorem buildIndex_get_zero {α : Type} (key : α → Option Int) (xs : List α) :
    dictGet? (buildIndex key xs) (0 : Int) = none := by
  induction xs using List.reverseRecOn with
  | nil => simp [buildIndex, dictGet?]
  | append_singleton xs x ih =>
      rw [buildIndex_append_singleton]
      cases hx : key x with
      | none =>
          rw [indexStep_eq_none key _ x hx]
          exact ih
      | some k' =>
          by_cases hk' : k' = 0
          · subst hk'
            rw [indexStep_eq_zero key _ x hx]
            exact ih
          · rw [indexStep_eq_set key _ x k' hx hk', dictGet?_dictSet,
              if_neg (fun h => hk' h.symm)]
            exact ih

/-- A key is found in the index exactly when it is nonzero and some record
carries it as its identifier. -/
theorem buildIndex_mem_iff {α : Type}
    (key : α → Option Int) (xs : List α) (k : Int) :
    (∃ c, dictGet? (buildIndex key xs) k = some c) ↔
      (k ≠ 0 ∧ ∃ x ∈ xs, key x = some k) := by
  by_cases hk : k = 0
  · subst hk
    simp [buildIndex_get_zero]
  · rw [buildIndex_get_eq_getLast key xs k hk]
    have h1 : (∃ c, (xs.filter fun x => key x == some k).getLast? = some c) ↔
        (xs.filter fun x => key x == some k) ≠ [] := by
      rw [← List.getLast?_isSome]
      constructor
      · rintro ⟨c, hc⟩
        simp [hc]
      · intro h
        exact Option.isSome_iff_exists.mp h
    rw [h1]
    constructor
    · intro hne
      refine ⟨hk, ?_⟩
      obtain ⟨c, hc⟩ := List.exists_mem_of_ne_nil _ hne
      exact ⟨c, List.mem_of_mem_filter hc, by simpa using List.of_mem_filter hc⟩
    · rintro ⟨-, x, hx, hkey⟩
      intro hnil
      have hmem : x ∈ List.filter (fun y => key y == some k) xs :=
        List.mem_filter.mpr ⟨hx, by simp [hkey]⟩
      rw [hnil] at hmem
      exact absurd hmem (List.not_mem_nil x)

/-! ### Language-merge lemmas -/

theorem mergeLang_none (src m : I18n) (l : String)
    (h : dictGet? src l = none) : mergeLang src m l = m := by
  simp [mergeLang, h]

theorem mergeLang_truthy (src m : I18n) (l : String) (v : Option String)
    (h : dictGet? src l = some v) (ht : truthyStr v = true) :
    mergeLang src m l = dictSet m l v := by
  simp [mergeLang, h, ht]

theorem mergeLang_falsy (src m : I18n) (l : String) (v : Option String)
    (h : dictGet? src l = some v) (ht : truthyStr v = false) :
    mergeLang src m l = m := by
  simp [mergeLang, h, ht]

theorem mergeLang_of_falsy (src m : I18n) (l : String)
    (h : truthyLookup src l = false) : mergeLang src m l = m := by
  cases hv : dictGet? src l with
  | none => exact mergeLang_none src m l hv
  | some v =>
      simp only [truthyLookup, hv] at h
      exact mergeLang_falsy src m l v hv h

theorem dictGet?_mergeLang_ne (src m : I18n) (l l' : String) (h : l' ≠ l) :
    dictGet? (mergeLang src m l) l' = dictGet? m l' := by
  cases hv : dictGet? src l with
  | none => rw [mergeLang_none src m l hv]
  | some v =>
      cases ht : truthyStr v with
      | false => rw [mergeLang_falsy src m l v hv ht]
      | true => rw [mergeLang_truthy src m l v hv ht, dictGet?_dictSet, if_neg h]

theorem dictGet?_mergeLang_self (src m : I18n) (l : String) (v : Option String)
    (hv : dictGet? src l = some v) (ht : truthyStr v = true) :
    dictGet? (mergeLang src m l) l = some v := by
  rw [mergeLang_truthy src m l v hv ht, dictGet?_dictSet, if_pos rfl]

theorem mergeLang_of_present (src m : I18n) (l : String) (v : Option String)
    (hv : dictGet? src l = some v) (ht : truthyStr v = true)
    (hm : dictGet? m l = some v) : mergeLang src m l = m := by
  rw [mergeLang_truthy src m l v hv ht, dictSet_of_dictGet?_eq m l v hm]

/-! ### Language-chain lemmas (the `'en'` step followed by the
`['de','es','ru','ja','zh']` loop is the fold of `mergeLang` over the
language list) -/

theorem chain_get_of_falsy (src : I18n) (ls : List String) (l : String) :
    ∀ m : I18n, truthyLookup src l = false →
      dictGet? (ls.foldl (mergeLang src) m) l = dictGet? m l := by
  induction ls with
  | nil => intro m _; rfl
  | cons l0 rest ih =>
      intro m h
      rw [List.foldl_cons, ih (mergeLang src m l0) h]
      by_cases hl : l = l0
      · subst hl
        rw [mergeLang_of_falsy src m l h]
      · exact dictGet?_mergeLang_ne src m l0 l hl

theorem chain_get_of_not_mem (src : I18n) (ls : List String) (l : String) :
    ∀ m : I18n, l ∉ ls →
      dictGet? (ls.foldl (mergeLang src) m) l = dictGet? m l := by
  induction ls with
  | nil => intro m _; rfl
  | cons l0 rest ih =>
      intro m h
      rw [List.foldl_cons,
        ih (mergeLang src m l0) (fun hr => h (List.mem_cons_of_mem l0 hr))]
      exact dictGet?_mergeLang_ne src m l0 l
        (fun he => h (he ▸ List.mem_cons_self l0 rest))

theorem chain_get_of_mem (src : I18n) (ls : List String) (l : String)
    (v : Option String) :
    ∀ m : I18n, ls.Nodup → l ∈ ls → dictGet? src l = some v →
      truthyStr v = true →
      dictGet? (ls.foldl (mergeLang src) m) l = some v := by
  induction ls with
  | nil => intro m _ hmem _ _; exact absurd hmem (List.not_mem_nil l)
  | cons l0 rest ih =>
      intro m hnd hmem hv ht
      rw [List.foldl_cons]
      rcases List.mem_cons.mp hmem with hl | hl
      · subst hl
        rw [chain_get_of_not_mem src rest l (mergeLang src m l)
            (List.nodup_cons.mp hnd).1]
        exact dictGet?_mergeLang_self src m l v hv ht
      · exact ih (mergeLang src m l0) (List.nodup_cons.mp hnd).2 hl hv ht

theorem chain_fix (src : I18n) (ls : List String) :
    ∀ m : I18n,
      (∀ l ∈ ls, ∀ v, dictGet? src l = some v → truthyStr v = true →
        dictGet? m l = some v) →
      ls.foldl (mergeLang src) m = m := by
  induction ls with
  | nil => intro m _; rfl
  | cons l0 rest ih =>
      intro m h
      have h0 : mergeLang src m l0 = m := by
        cases hv : dictGet? src l0 with
        | none => exact mergeLang_none src m l0 hv
        | some v =>
            cases ht : truthyStr v with
            | false => exact mergeLang_falsy src m l0 v hv ht
            | true =>
                exact mergeLang_of_present src m l0 v hv ht
                  (h l0 (List.mem_cons_self l0 rest) v hv ht)
      rw [List.foldl_cons, h0]
      exact ih m (fun l hl v hv ht => h l (List.mem_cons_of_mem l0 hl) v hv ht)

theorem chain_idem (src : I18n) (ls : List String) (m : I18n)
    (hnd : ls.Nodup) :
    ls.foldl (mergeLang src) (ls.foldl (mergeLang src) m) =
      ls.foldl (mergeLang src) m := by
  apply chain_fix
  intro l hl v hv ht
  exact chain_get_of_mem src ls l v m hnd hl hv ht

/-! ### Paragraph- and chapter-step lemmas -/

theorem mergeChain_eq_foldl (si t18 : I18n) :
    mergeChain si t18 = allLangs.foldl (mergeLang si) t18 := rfl

theorem mergeChain_idem (si m : I18n) :
    mergeChain si (mergeChain si m) = mergeChain si m := by
  rw [mergeChain_eq_foldl, mergeChain_eq_foldl]
  exact chain_idem si allLangs m (by decide)

theorem mergePara_none (sp tp : Paragraph) (h : tp.i18n = none) :
    mergePara sp tp = tp := by
  simp [mergePara, h]

theorem mergePara_some (sp tp : Paragraph) (t18 : I18n)
    (h : tp.i18n = some t18) :
    mergePara sp tp =
      { tp with i18n := some (mergeChain (sp.i18n.getD []) t18) } := by
  simp [mergePara, h]

theorem mergePara_n (sp tp : Paragraph) : (mergePara sp tp).n = tp.n := by
  obtain ⟨a, b, c⟩ := tp
  cases c <;> rfl

theorem mergePara_idem (sp tp : Paragraph) :
    mergePara sp (mergePara sp tp) = mergePara sp tp := by
  obtain ⟨a, b, c⟩ := tp
  cases c with
  | none => rfl
  | some t18 =>
      simp only [mergePara]
      rw [mergeChain_idem]

theorem paraStep_none (d : List (Int × Paragraph)) (tp : Paragraph)
    (h : dictFind? d tp.n = none) : paraStep d tp = tp := by
  simp [paraStep, h]

theorem paraStep_some (d : List (Int × Paragraph)) (tp sp : Paragraph)
    (h : dictFind? d tp.n = some sp) : paraStep d tp = mergePara sp tp := by
  simp [paraStep, h]

theorem paraStep_idem (d : List (Int × Paragraph)) (tp : Paragraph) :
    paraStep d (paraStep d tp) = paraStep d tp := by
  cases h : dictFind? d tp.n with
  | none => rw [paraStep_none d tp h, paraStep_none d tp h]
  | some sp =>
      rw [paraStep_some d tp sp h]
      have h2 : dictFind? d (mergePara sp tp).n = some sp := by
        rw [mergePara_n]
        exact h
      rw [paraStep_some d (mergePara sp tp) sp h2]
      exact mergePara_idem sp tp

theorem mergeChapter_n (sc tc : Chapter) : (mergeChapter sc tc).n = tc.n := rfl

theorem mergeChapter_idem (sc tc : Chapter) :
    mergeChapter sc (mergeChapter sc tc) = mergeChapter sc tc := by
  have hmap : ∀ ps : List Paragraph,
      (ps.map (paraStep (buildIndex Paragraph.n sc.paragraphs))).map
          (paraStep (buildIndex Paragraph.n sc.paragraphs)) =
        ps.map (paraStep (buildIndex Paragraph.n sc.paragraphs)) := by
    intro ps
    induction ps with
    | nil => rfl
    | cons p rest ih => simp [List.map_cons, ih, paraStep_idem]
  obtain ⟨n, t, i, ps⟩ := tc
  simp [mergeChapter, hmap]

theorem chapStep_none (d : List (Int × Chapter)) (tc : Chapter)
    (h : dictFind? d tc.n = none) : chapStep d tc = tc := by
  simp [chapStep, h]

theorem chapStep_some (d : List (Int × Chapter)) (tc sc : Chapter)
    (h : dictFind? d tc.n = some sc) : chapStep d tc = mergeChapter sc tc := by
  simp [chapStep, h]

theorem chapStep_idem (d : List (Int × Chapter)) (tc : Chapter) :
    chapStep d (chapStep d tc) = chapStep d tc := by
  cases h : dictFind? d tc.n with
  | none => rw [chapStep_none d tc h, chapStep_none d tc h]
  | some sc =>
      rw [chapStep_some d tc sc h]
      have h2 : dictFind? d (mergeChapter sc tc).n = some sc := by
        rw [mergeChapter_n]
        exact h
      rw [chapStep_some d (mergeChapter sc tc) sc h2]
      exact mergeChapter_idem sc tc

/-! ### Positional decomposition of the merge -/

theorem get?_merge_chapters (t s : Document) (i : Nat) (tc : Chapter)
    (h : t.chapters.get? i = some tc) :
    (merge_i18n_translations t s).chapters.get? i =
      some (chapStep (buildIndex Chapter.n s.chapters) tc) := by
  have hch : (merge_i18n_translations t s).chapters =
      t.chapters.map (chapStep (buildIndex Chapter.n s.chapters)) := rfl
  rw [hch, List.get?_map, h]
  rfl

/-- Where each target paragraph of the merged document comes from: the
original paragraph, transformed by `mergePara` exactly when the two index
lookups of the script both hit. -/
theorem paraAt_merge (t s : Document) (i j : Nat) (tp : Paragraph)
    (h : paraAt t i j = some tp) :
    paraAt (merge_i18n_translations t s) i j =
      some (applyMatch (matchedSourcePara t s i j) tp) := by
  unfold paraAt at h ⊢
  unfold matchedSourcePara
  cases hc : t.chapters.get? i with
  | none =>
      rw [hc] at h
      simp at h
  | some tc =>
      rw [hc] at h
      simp only [Option.some_bind] at h
      rw [get?_merge_chapters t s i tc hc]
      simp only [Option.some_bind]
      cases hsc : dictFind? (buildIndex Chapter.n s.chapters) tc.n with
      | none =>
          rw [chapStep_none _ tc hsc]
          simp only [Option.some_bind, hsc, Option.none_bind, applyMatch]
          exact h
      | some sc =>
          rw [chapStep_some _ tc sc hsc]
          simp only [Option.some_bind, mergeChapter, List.get?_map, h,
            Option.map_some']
          cases hsp : dictFind? (buildIndex Paragraph.n sc.paragraphs) tp.n with
          | none => rw [paraStep_none _ tp hsp]; simp [applyMatch]
          | some sp => rw [paraStep_some _ tp sp hsp]; simp [applyMatch]

/-! ### Key-set lemmas -/

theorem mem_keys_dictSet {κ α : Type} [DecidableEq κ]
    (m : List (κ × α)) (k : κ) (v : α) (l : κ)
    (h : l ∈ (dictSet m k v).map Prod.fst) : l = k ∨ l ∈ m.map Prod.fst := by
  induction m with
  | nil =>
      simp only [dictSet, List.map_cons, List.map_nil,
        List.mem_singleton] at h
      exact Or.inl h
  | cons p rest ih =>
      obtain ⟨a, b⟩ := p
      simp only [dictSet] at h
      by_cases hak : a = k
      · rw [if_pos hak] at h
        simp only [List.map_cons, List.mem_cons] at h
        rcases h with h | h
        · exact Or.inl h
        · right
          rw [List.map_cons]
          exact List.mem_cons_of_mem a h
      · rw [if_neg hak] at h
        simp only [List.map_cons, List.mem_cons] at h
        rcases h with h | h
        · right
          rw [List.map_cons, h]
          exact List.mem_cons_self a _
        · rcases ih h with h' | h'
          · exact Or.inl h'
          · right
            rw [List.map_cons]
            exact List.mem_cons_of_mem a h'

theorem mem_keys_mergeLang (src m : I18n) (l0 l : String)
    (h : l ∈ (mergeLang src m l0).map Prod.fst) :
    l = l0 ∨ l ∈ m.map Prod.fst := by
  cases hv : dictGet? src l0 with
  | none =>
      rw [mergeLang_none src m l0 hv] at h
      exact Or.inr h
  | some v =>
      cases ht : truthyStr v with
      | false =>
          rw [mergeLang_falsy src m l0 v hv ht] at h
          exact Or.inr h
      | true =>
          rw [mergeLang_truthy src m l0 v hv ht] at h
          exact mem_keys_dictSet m l0 v l h

theorem mem_keys_chain (src : I18n) (ls : List String) (l : String) :
    ∀ m : I18n, l ∈ (ls.foldl (mergeLang src) m).map Prod.fst →
      l ∈ ls ∨ l ∈ m.map Prod.fst := by
  induction ls with
  | nil => intro m h; exact Or.inr h
  | cons l0 rest ih =>
      intro m h
      rw [List.foldl_cons] at h
      rcases ih (mergeLang src m l0) h with h' | h'
      · exact Or.inl (List.mem_cons_of_mem l0 h')
      · rcases mem_keys_mergeLang src m l0 l h' with h'' | h''
        · rw [h'']
          exact Or.inl (List.mem_cons_self l0 rest)
        · exact Or.inr h''

/-! ### Claim theorems -/

/-- C1: during index construction the last record in source array order wins
on duplicate identifiers, for the chapter index and for the per-chapter
paragraph index alike: the lookup used for matching returns the last chapter
(resp. paragraph) carrying the looked-up identifier. -/
theorem claim_C1_last_duplicate_wins :
    (∀ (chs : List Chapter) (k : Int), k ≠ 0 →
      dictGet? (buildIndex Chapter.n chs) k =
        (chs.filter (fun c => c.n == some k)).getLast?) ∧
    (∀ (ps : List Paragraph) (k : Int), k ≠ 0 →
      dictGet? (buildIndex Paragraph.n ps) k =
        (ps.filter (fun p => p.n == some k)).getLast?) :=
  ⟨fun chs k hk => buildIndex_get_eq_getLast Chapter.n chs k hk,
   fun ps k hk => buildIndex_get_eq_getLast Paragraph.n ps k hk⟩

/-- Witness for C1: with two source chapters numbered 3, the index lookup
used for matching returns the second one. -/
theorem claim_C1_witness :
    dictGet? (buildIndex Chapter.n
        [⟨some 3, some "A", none, []⟩, ⟨some 3, some "B", none, []⟩]) 3 =
      some ⟨some 3, some "B", none, []⟩ :=
  (claim_C1_last_duplicate_wins.1
      [⟨some 3, some "A", none, []⟩, ⟨some 3, some "B", none, []⟩] 3
      (by decide)).trans (by decide)

/-- C2: for a matched target paragraph that has an `i18n` mapping and any
language code in the fixed set, a source value that is absent, `null` or the
empty string leaves the target's value for that code unchanged. -/
theorem claim_C2_empty_value_non_overwrite
    (t s : Document) (i j : Nat) (tp sp mp : Paragraph) (t18 : I18n)
    (lang : String)
    (hp : paraAt t i j = some tp)
    (hm : matchedSourcePara t s i j = some sp)
    (hmp : paraAt (merge_i18n_translations t s) i j = some mp)
    (h18 : tp.i18n = some t18)
    (hlang : lang ∈ allLangs)
    (hfalsy : truthyLookup (sp.i18n.getD []) lang = false) :
    dictGet? (mp.i18n.getD []) lang = dictGet? t18 lang := by
  have hdec := paraAt_merge t s i j tp hp
  rw [hm] at hdec
  rw [hdec] at hmp
  have hmp' : mp = mergePara sp tp := Option.some.inj hmp.symm
  rw [hmp', mergePara_some sp tp t18 h18]
  show dictGet? (mergeChain ((sp.i18n).getD []) t18) lang = dictGet? t18 lang
  rw [mergeChain_eq_foldl]
  exact chain_get_of_falsy ((sp.i18n).getD []) allLangs lang t18 hfalsy

/-- Witness for C2: source `en` is the empty string, target `en` is
`"Hello"`; after the merge the value at `en` is unchanged. -/
theorem claim_C2_witness :
    dictGet? ((Paragraph.mk (some 1) none
        (some [("en", some "Hello")])).i18n.getD []) "en" =
      dictGet? [("en", some "Hello")] "en" :=
  claim_C2_empty_value_non_overwrite
    ⟨[⟨some 1, none, none, [⟨some 1, none, some [("en", some "Hello")]⟩]⟩]⟩
    ⟨[⟨some 1, none, none, [⟨some 1, none, some [("en", some "")]⟩]⟩]⟩
    0 0
    ⟨some 1, none, some [("en", some "Hello")]⟩
    ⟨some 1, none, some [("en", some "")]⟩
    ⟨some 1, none, some [("en", some "Hello")]⟩
    [("en", some "Hello")] "en"
    (by decide) (by decide) (by decide) (by decide) (by decide) (by decide)

/-- C3: the merge never introduces a language key outside the fixed set
`{en, de, es, ru, ja, zh}` into a target paragraph's `i18n` mapping: every
key of a merged paragraph was already a key of the original paragraph or is
one of the six fixed codes. -/
theorem claim_C3_closed_language_set
    (t s : Document) (i j : Nat) (tp mp : Paragraph) (lang : String)
    (hp : paraAt t i j = some tp)
    (hmp : paraAt (merge_i18n_translations t s) i j = some mp)
    (hkey : lang ∈ i18nKeys mp) :
    lang ∈ i18nKeys tp ∨ lang ∈ allLangs := by
  have hdec := paraAt_merge t s i j tp hp
  rw [hdec] at hmp
  have hmp' : mp = applyMatch (matchedSourcePara t s i j) tp :=
    Option.some.inj hmp.symm
  subst hmp'
  cases hms : matchedSourcePara t s i j with
  | none =>
      rw [hms] at hkey
      exact Or.inl hkey
  | some sp =>
      rw [hms] at hkey
      cases h18 : tp.i18n with
      | none =>
          rw [show applyMatch (some sp) tp = mergePara sp tp from rfl,
            mergePara_none sp tp h18] at hkey
          exact Or.inl hkey
      | some t18 =>
          rw [show applyMatch (some sp) tp = mergePara sp tp from rfl,
            mergePara_some sp tp t18 h18] at hkey
          have hkey' : lang ∈
              (mergeChain ((sp.i18n).getD []) t18).map Prod.fst := hkey
          rw [mergeChain_eq_foldl] at hkey'
          rcases mem_keys_chain ((sp.i18n).getD []) allLangs lang t18 hkey'
            with h | h
          · exact Or.inr h
          · left
            unfold i18nKeys
            rw [h18]
            exact h

/-- Witness for C3: the source also carries an `"it"` key; the merged
paragraph's `"de"` key is accounted for by the fixed language set, and the
`"it"` key is indeed not introduced. -/
theorem claim_C3_witness :
    ("de" ∈ i18nKeys ⟨some 1, none, some [("en", some "")]⟩ ∨
      "de" ∈ allLangs) :=
  claim_C3_closed_language_set
    ⟨[⟨some 1, none, none, [⟨some 1, none, some [("en", some "")]⟩]⟩]⟩
    ⟨[⟨some 1, none, none,
        [⟨some 1, none,
          some [("it", some "Ciao"), ("de", some "Hallo")]⟩]⟩]⟩
    0 0
    ⟨some 1, none, some [("en", some "")]⟩
    ⟨some 1, none, some [("en", some ""), ("de", some "Hallo")]⟩
    "de"
    (by decide) (by decide) (by decide)

/-- C4: a target paragraph that lacks an `i18n` field before the merge still
lacks one after the merge, whatever the source contains. -/
theorem claim_C4_no_field_creation
    (t s : Document) (i j : Nat) (tp mp : Paragraph)
    (hp : paraAt t i j = some tp)
    (hmp : paraAt (merge_i18n_translations t s) i j = some mp)
    (hnone : tp.i18n = none) :
    mp.i18n = none := by
  have hdec := paraAt_merge t s i j tp hp
  rw [hdec] at hmp
  have hmp' : mp = applyMatch (matchedSourcePara t s i j) tp :=
    Option.some.inj hmp.symm
  subst hmp'
  cases hms : matchedSourcePara t s i j with
  | none => exact hnone
  | some sp =>
      show (mergePara sp tp).i18n = none
      rw [mergePara_none sp tp hnone]
      exact hnone

/-- Witness for C4: the target paragraph has no `i18n` field, the matching
source paragraph is full of translations; the merged paragraph still has no
`i18n` field. -/
theorem claim_C4_witness :
    (Paragraph.mk (some 1) (some "txt") none).i18n = none :=
  claim_C4_no_field_creation
    ⟨[⟨some 1, none, none, [⟨some 1, some "txt", none⟩]⟩]⟩
    ⟨[⟨some 1, none, none,
        [⟨some 1, none, some [("en", some "Hello"), ("de", some "Hallo")]⟩]⟩]⟩
    0 0
    ⟨some 1, some "txt", none⟩
    ⟨some 1, some "txt", none⟩
    (by decide) (by decide) (by decide)

/-- C5: a target chapter whose identifier is not found in the source chapter
index is left entirely unchanged by the merge (paragraphs and `i18n`
mappings included). -/
theorem claim_C5_unmatched_chapter_unchanged
    (t s : Document) (i : Nat) (tc : Chapter)
    (hc : t.chapters.get? i = some tc)
    (hmiss : dictFind? (buildIndex Chapter.n s.chapters) tc.n = none) :
    (merge_i18n_translations t s).chapters.get? i = some tc := by
  rw [get?_merge_chapters t s i tc hc, chapStep_none _ tc hmiss]

/-- Witness for C5: target chapter 2 has no counterpart in a source that
only contains chapter 3, so it comes out of the merge unchanged. -/
theorem claim_C5_witness :
    (merge_i18n_translations
        ⟨[⟨some 2, some "two", none,
            [⟨some 1, some "txt", some [("en", some "")]⟩]⟩]⟩
        ⟨[⟨some 3, none, none,
            [⟨some 1, none, some [("en", some "Hi")]⟩]⟩]⟩).chapters.get? 0 =
      some ⟨some 2, some "two", none,
        [⟨some 1, some "txt", some [("en", some "")]⟩]⟩ :=
  claim_C5_unmatched_chapter_unchanged
    ⟨[⟨some 2, some "two", none,
        [⟨some 1, some "txt", some [("en", some "")]⟩]⟩]⟩
    ⟨[⟨some 3, none, none, [⟨some 1, none, some [("en", some "Hi")]⟩]⟩]⟩
    0
    ⟨some 2, some "two", none, [⟨some 1, some "txt", some [("en", some "")]⟩]⟩
    (by decide) (by decide)

/-- C7 counterexample: the claim says a match occurs whenever a target
chapter's identifier equals a source chapter's identifier, and that only
records WITHOUT an `n` field are never matched.  With both chapters numbered
0 (a present but falsy identifier) the identifiers are equal and a match
would have changed the chapter, yet the merge leaves the whole target
unchanged: the chapter was not matched. -/
theorem claim_C7_counterexample :
    merge_i18n_translations
        ⟨[⟨some 0, none, none, [⟨some 1, none, some [("en", some "")]⟩]⟩]⟩
        ⟨[⟨some 0, none, none, [⟨some 1, none, some [("en", some "Hello")]⟩]⟩]⟩ =
      ⟨[⟨some 0, none, none, [⟨some 1, none, some [("en", some "")]⟩]⟩]⟩ ∧
    (⟨some 0, none, none, [⟨some 1, none, some [("en", some "")]⟩]⟩ : Chapter).n =
      (⟨some 0, none, none,
        [⟨some 1, none, some [("en", some "Hello")]⟩]⟩ : Chapter).n ∧
    mergeChapter
        ⟨some 0, none, none, [⟨some 1, none, some [("en", some "Hello")]⟩]⟩
        ⟨some 0, none, none, [⟨some 1, none, some [("en", some "")]⟩]⟩ ≠
      ⟨some 0, none, none, [⟨some 1, none, some [("en", some "")]⟩]⟩ := by
  refine ⟨?_, rfl, ?_⟩
  · decide
  · decide

/-- C7 amended: matching is by identifier equality restricted to truthy
identifiers — a chapter (resp. paragraph) identifier is found in an index
exactly when it is nonzero and some source record carries it; target
chapters and paragraphs whose lookup fails (identifier absent, zero, or not
present in the source) are left untouched. -/
theorem claim_C7_amended_matching :
    (∀ (chs : List Chapter) (k : Int),
      (∃ c, dictGet? (buildIndex Chapter.n chs) k = some c) ↔
        (k ≠ 0 ∧ ∃ c ∈ chs, c.n = some k)) ∧
    (∀ (ps : List Paragraph) (k : Int),
      (∃ p, dictGet? (buildIndex Paragraph.n ps) k = some p) ↔
        (k ≠ 0 ∧ ∃ p ∈ ps, p.n = some k)) ∧
    (∀ (t s : Document) (i : Nat) (tc : Chapter),
      t.chapters.get? i = some tc →
      dictFind? (buildIndex Chapter.n s.chapters) tc.n = none →
      (merge_i18n_translations t s).chapters.get? i = some tc) ∧
    (∀ (t s : Document) (i j : Nat) (tp : Paragraph),
      paraAt t i j = some tp →
      matchedSourcePara t s i j = none →
      paraAt (merge_i18n_translations t s) i j = some tp) := by
  refine ⟨fun chs k => buildIndex_mem_iff Chapter.n chs k,
    fun ps k => buildIndex_mem_iff Paragraph.n ps k,
    fun t s i tc hc hmiss => ?_,
    fun t s i j tp hp hmiss => ?_⟩
  · rw [get?_merge_chapters t s i tc hc, chapStep_none _ tc hmiss]
  · have hdec := paraAt_merge t s i j tp hp
    rw [hmiss] at hdec
    exact hdec

/-- Witness for C7 (amended): a target chapter numbered 0 is never matched —
even against a source that also has a chapter numbered 0 — and survives the
merge untouched. -/
theorem claim_C7_amended_witness :
    (merge_i18n_translations
        ⟨[⟨some 0, some "zero", none, [⟨some 2, none, some [("en", some "")]⟩]⟩]⟩
        ⟨[⟨some 0, none, none,
            [⟨some 2, none, some [("en", some "Bonjour")]⟩]⟩]⟩).chapters.get? 0 =
      some ⟨some 0, some "zero", none,
        [⟨some 2, none, some [("en", some "")]⟩]⟩ :=
  claim_C7_amended_matching.2.2.1
    ⟨[⟨some 0, some "zero", none, [⟨some 2, none, some [("en", some "")]⟩]⟩]⟩
    ⟨[⟨some 0, none, none, [⟨some 2, none, some [("en", some "Bonjour")]⟩]⟩]⟩
    0
    ⟨some 0, some "zero", none, [⟨some 2, none, some [("en", some "")]⟩]⟩
    (by decide) (by decide)

/-- C8: the merge never modifies the source document.  In the explicit-state
embedding the program state is the pair (target tree, source tree); running
the merge leaves the source component exactly as it was.  (The script's two
trees come from two separate parses, so they never alias.) -/
theorem claim_C8_source_read_only (st : Document × Document) :
    (mergeState st).2 = st.2 := rfl

/-- C9: the coverage percentage is computed only when the total paragraph
count is positive; when it is zero the statistics line is the
"No paragraphs found" message instead, so the division is never reached. -/
theorem claim_C9_no_division_by_zero (d : Document) :
    (totalParagraphs d = 0 → coverageLine d = CoverageReport.noParagraphs) ∧
    (0 < totalParagraphs d →
      coverageLine d = CoverageReport.coverage
        ((filledEnTranslations d : ℚ) / (totalParagraphs d : ℚ) * 100)) := by
  constructor
  · intro h
    unfold coverageLine
    rw [h]
    rfl
  · intro h
    unfold coverageLine
    rw [if_pos h]

/-- Witness for C9: on a document with no chapters at all the statistics
step reports "No paragraphs found". -/
theorem claim_C9_witness :
    coverageLine ⟨[]⟩ = CoverageReport.noParagraphs :=
  (claim_C9_no_division_by_zero ⟨[]⟩).1 rfl

/-- C10: the merge is idempotent in the source — merging the same source
into an already-merged target changes nothing further. -/
theorem claim_C10_merge_idempotent (t s : Document) :
    merge_i18n_translations (merge_i18n_translations t s) s =
      merge_i18n_translations t s := by
  have hmap : ∀ chs : List Chapter,
      (chs.map (chapStep (buildIndex Chapter.n s.chapters))).map
          (chapStep (buildIndex Chapter.n s.chapters)) =
        chs.map (chapStep (buildIndex Chapter.n s.chapters)) := by
    intro chs
    induction chs with
    | nil => rfl
    | cons c rest ih => simp [List.map_cons, ih, chapStep_idem]
  obtain ⟨chs⟩ := t
  simp [merge_i18n_translations, hmap]
